import Mathlib

/-!
Verification of the RPC load-balancing and resilience layer:
a shallow embedding of the `ResilientGrpcClient` retry/circuit-breaker
executor and of the `GrpcLoadBalancer` / `BackendServer` registry,
together with theorems settling the specification claims.

Modelling conventions:
* JavaScript numbers holding integer counters are `Nat` or `Int`
  (`Int` for `currentConnections`, whose non-negativity is a claimed
  invariant rather than a typing fact).
* Response times and averages are `ℚ` (JS floating point division is
  modelled exactly by rational arithmetic).
* `Date.now()` timestamps are `Nat` milliseconds passed in explicitly.
* `Math.random()` draws are explicit input streams (`Nat → ℚ` for the
  retry jitter, `Nat → Nat` for the Fisher-Yates shuffle index).
-/

namespace Resilient

/-! ### gRPC status codes (grpc.status, re-exported as GrpcErrorCodes) -/

def OK : Nat := 0
def CANCELLED : Nat := 1
def UNKNOWN : Nat := 2
def INVALID_ARGUMENT : Nat := 3
def DEADLINE_EXCEEDED : Nat := 4
def NOT_FOUND : Nat := 5
def ALREADY_EXISTS : Nat := 6
def PERMISSION_DENIED : Nat := 7
def RESOURCE_EXHAUSTED : Nat := 8
def FAILED_PRECONDITION : Nat := 9
def ABORTED : Nat := 10
def OUT_OF_RANGE : Nat := 11
def UNIMPLEMENTED : Nat := 12
def INTERNAL : Nat := 13
def UNAVAILABLE : Nat := 14
def DATA_LOSS : Nat := 15
def UNAUTHENTICATED : Nat := 16

/-- Retry configuration of `ResilientGrpcClient` (`this.retryOptions`). -/
structure RetryConfig where
  maxRetries : Nat
  initialDelay : Nat
  maxDelay : Nat
  backoffMultiplier : Nat
  retryableErrors : List Nat
  deriving Repr, DecidableEq

/-- The constructor defaults: maxRetries 3, initialDelay 1000 ms,
maxDelay 10000 ms, multiplier 2, and the default retryable set. -/
def defaultRetryConfig : RetryConfig :=
  { maxRetries := 3
    initialDelay := 1000
    maxDelay := 10000
    backoffMultiplier := 2
    retryableErrors := [UNAVAILABLE, DEADLINE_EXCEEDED, RESOURCE_EXHAUSTED, ABORTED] }

/-- `shouldRetry(error)`: membership of the error code in the retryable set. -/
def shouldRetry (cfg : RetryConfig) (code : Nat) : Bool :=
  cfg.retryableErrors.contains code

/-- The status code the executor puts on the synthetic error thrown when the
circuit breaker is open (`error.code = GrpcErrorCodes.UNAVAILABLE`). -/
def circuitOpenErrorCode : Nat := UNAVAILABLE

/-- `calculateDelay(attempt)`:
`min(initialDelay * backoffMultiplier^(attempt-1), maxDelay) + Math.random()*1000`.
`rnd attempt` is that call's `Math.random()` draw. -/
def calculateDelay (cfg : RetryConfig) (rnd : Nat → ℚ) (attempt : Nat) : ℚ :=
  (min (cfg.initialDelay * cfg.backoffMultiplier ^ (attempt - 1)) cfg.maxDelay : Nat)
    + rnd attempt * 1000

/-! ### Circuit breaker state machine (`this.circuitBreaker`) -/

inductive CBState where
  | CLOSED
  | OPEN
  | HALF_OPEN
  deriving Repr, DecidableEq

structure Breaker where
  enabled : Bool
  failureThreshold : Nat
  resetTimeout : Nat
  state : CBState
  failures : Nat
  lastFailureTime : Option Nat
  deriving Repr, DecidableEq

/-- A freshly constructed breaker: CLOSED, zero failures, no failure time. -/
def mkBreaker (enabled : Bool) (failureThreshold resetTimeout : Nat) : Breaker :=
  { enabled := enabled
    failureThreshold := failureThreshold
    resetTimeout := resetTimeout
    state := CBState.CLOSED
    failures := 0
    lastFailureTime := none }

/-- `isCircuitOpen()`: in OPEN, once `now - lastFailureTime >= resetTimeout`
the breaker moves to HALF_OPEN and the call is let through; the mutated
breaker is returned alongside the boolean. -/
def isCircuitOpen (cb : Breaker) (now : Nat) : Bool × Breaker :=
  match cb.state with
  | CBState.OPEN =>
      if cb.resetTimeout ≤ now - (cb.lastFailureTime.getD 0) then
        (false, { cb with state := CBState.HALF_OPEN })
      else
        (true, cb)
  | _ => (false, cb)

/-- `onCallSuccess()`: reset the failure count; HALF_OPEN recovers to CLOSED. -/
def onCallSuccess (cb : Breaker) : Breaker :=
  if cb.enabled then
    let cb1 := { cb with failures := 0 }
    if cb1.state = CBState.HALF_OPEN then { cb1 with state := CBState.CLOSED } else cb1
  else cb

/-- `onCallFailure(error)`: bump the failure count, stamp the failure time,
and open the circuit when the count reaches the threshold. -/
def onCallFailure (cb : Breaker) (now : Nat) : Breaker :=
  if cb.enabled then
    let cb1 := { cb with failures := cb.failures + 1, lastFailureTime := some now }
    if cb1.failureThreshold ≤ cb1.failures then { cb1 with state := CBState.OPEN } else cb1
  else cb

/-! ### The retry loop of `call` -/

/-- Outcome of one `call`: success, a terminal classified failure, or the
fail-fast path taken with the breaker OPEN (carrying the synthetic code). -/
inductive CallResult where
  | ok
  | failedWith (code : Nat)
  | circuitOpenFast (code : Nat)
  deriving Repr, DecidableEq

/-- Observable trace of one `call`: how many transport attempts were issued,
the backoff delays slept (in order), and the final outcome. -/
structure CallTrace where
  invocations : Nat
  delays : List ℚ
  result : CallResult
  deriving Repr, DecidableEq

/-- The `while (attempt <= maxRetries)` loop of `call`.
`transport a` is the result of the `a`-th transport invocation
(`none` = success, `some code` = failure with that classified code);
`attempt` is the loop's attempt counter at iteration entry and
`remaining = maxRetries - attempt`.  Returns
(number of transport invocations, delays slept, `none` on success or the
terminal error code). -/
def callLoopAux (cfg : RetryConfig) (transport : Nat → Option Nat) (rnd : Nat → ℚ) :
    Nat → Nat → Nat × List ℚ × Option Nat
  | attempt, 0 =>
    let ds : List ℚ := if attempt = 0 then [] else [calculateDelay cfg rnd attempt]
    match transport attempt with
    | none => (1, ds, none)
    | some code => (1, ds, some code)
  | attempt, r + 1 =>
    let ds : List ℚ := if attempt = 0 then [] else [calculateDelay cfg rnd attempt]
    match transport attempt with
    | none => (1, ds, none)
    | some code =>
      if shouldRetry cfg code then
        let rest := callLoopAux cfg transport rnd (attempt + 1) r
        (rest.1 + 1, ds ++ rest.2.1, rest.2.2)
      else
        (1, ds, some code)

/-- `call(client, method, request)`: breaker check, retry loop, terminal
breaker bookkeeping.  `now` is the call's timestamp. -/
def call (cfg : RetryConfig) (cb : Breaker) (now : Nat)
    (transport : Nat → Option Nat) (rnd : Nat → ℚ) : CallTrace × Breaker :=
  if cb.enabled then
    let chk := isCircuitOpen cb now
    if chk.1 then
      ({ invocations := 0, delays := [], result := CallResult.circuitOpenFast circuitOpenErrorCode },
       chk.2)
    else
      let r := callLoopAux cfg transport rnd 0 cfg.maxRetries
      match r.2.2 with
      | none =>
          ({ invocations := r.1, delays := r.2.1, result := CallResult.ok }, onCallSuccess chk.2)
      | some code =>
          ({ invocations := r.1, delays := r.2.1, result := CallResult.failedWith code },
           onCallFailure chk.2 now)
  else
    let r := callLoopAux cfg transport rnd 0 cfg.maxRetries
    match r.2.2 with
    | none =>
        ({ invocations := r.1, delays := r.2.1, result := CallResult.ok }, onCallSuccess cb)
    | some code =>
        ({ invocations := r.1, delays := r.2.1, result := CallResult.failedWith code },
         onCallFailure cb now)

/-- Run a sequence of calls (with a fixed transport behaviour) at the given
timestamps, tracking only the breaker state. -/
def callSeq (cfg : RetryConfig) (transport : Nat → Option Nat) (rnd : Nat → ℚ) :
    Breaker → List Nat → Breaker
  | cb, [] => cb
  | cb, t :: ts => callSeq cfg transport rnd (call cfg cb t transport rnd).2 ts

end Resilient

namespace LB

/-! ### BackendServer (registry entry) -/

inductive Health where
  | healthy
  | unhealthy
  | unknown
  deriving Repr, DecidableEq

/-- JavaScript `v || d` for numeric options: a missing or zero (falsy)
value falls back to the default. -/
def jsOr (v : Option Nat) (d : Nat) : Nat :=
  match v with
  | some 0 => d
  | some n => n
  | none => d

structure ServerOptions where
  weight : Option Nat := none
  maxConnections : Option Nat := none
  deriving Repr, DecidableEq

structure BackendServer where
  id : String
  host : String
  port : Nat
  weight : Nat
  maxConnections : Int
  currentConnections : Int
  totalRequests : Nat
  successfulRequests : Nat
  failedRequests : Nat
  health : Health
  responseTime : ℚ
  enabled : Bool
  responseTimes : List ℚ
  deriving Repr, DecidableEq

/-- The rolling response-time window capacity (`maxResponseTimeHistory`). -/
def maxResponseTimeHistory : Nat := 100

/-- The `BackendServer` constructor. -/
def mkServer (host : String) (port : Nat) (opts : ServerOptions) : BackendServer :=
  { id := host ++ ":" ++ toString port
    host := host
    port := port
    weight := jsOr opts.weight 1
    maxConnections := (jsOr opts.maxConnections 100 : Nat)
    currentConnections := 0
    totalRequests := 0
    successfulRequests := 0
    failedRequests := 0
    health := Health.unknown
    responseTime := 0
    enabled := true
    responseTimes := [] }

/-- `addConnection()`. -/
def addConnection (s : BackendServer) : BackendServer :=
  { s with currentConnections := s.currentConnections + 1 }

/-- `removeConnection()`: decrement, guarded against going negative. -/
def removeConnection (s : BackendServer) : BackendServer :=
  if 0 < s.currentConnections then
    { s with currentConnections := s.currentConnections - 1 }
  else s

/-- `getAverageResponseTime()`. -/
def getAverageResponseTime (s : BackendServer) : ℚ :=
  if s.responseTimes.length = 0 then 0
  else s.responseTimes.sum / s.responseTimes.length

/-- `recordRequest(success, responseTime)`: bump the counters; a sample is
pushed into the rolling window (with FIFO eviction via `shift()` past
capacity) only when `responseTime > 0`, and the stored average is then
recomputed. -/
def recordRequest (s : BackendServer) (success : Bool) (responseTime : ℚ) : BackendServer :=
  let s1 := { s with
    totalRequests := s.totalRequests + 1
    successfulRequests := if success then s.successfulRequests + 1 else s.successfulRequests
    failedRequests := if success then s.failedRequests else s.failedRequests + 1 }
  if 0 < responseTime then
    let pushed := s1.responseTimes ++ [responseTime]
    let window := if maxResponseTimeHistory < pushed.length then pushed.tail else pushed
    let s2 := { s1 with responseTimes := window }
    { s2 with responseTime := getAverageResponseTime s2 }
  else s1

/-- `getSuccessRate()`. -/
def getSuccessRate (s : BackendServer) : ℚ :=
  if s.totalRequests = 0 then 1
  else (s.successfulRequests : ℚ) / (s.totalRequests : ℚ)

/-- `isAvailable()`. -/
def isAvailable (s : BackendServer) : Bool :=
  s.enabled && s.health != Health.unhealthy && s.currentConnections < s.maxConnections

/-- `getHealthScore()`. -/
def getHealthScore (s : BackendServer) : ℚ :=
  if isAvailable s then
    let successRate := getSuccessRate s
    let connectionLoad : ℚ := (s.currentConnections : ℚ) / (s.maxConnections : ℚ)
    let responseTimeFactor : ℚ :=
      if 0 < s.responseTime then max 0 (1 - s.responseTime / 5000) else 1
    successRate * (1/2) + (1 - connectionLoad) * (3/10) + responseTimeFactor * (1/5)
  else 0

/-! ### GrpcLoadBalancer -/

inductive Strategy where
  | round_robin
  | weighted_round_robin
  | least_connections
  | health_based
  | ip_hash
  deriving Repr, DecidableEq

/-- The balancer state.  `servers` models the id-keyed `Map` as a list in
insertion order (ids are unique in every state reachable through the
operations); `sessionStore` and `distributionStats` likewise. -/
structure Balancer where
  servers : List BackendServer
  strategy : Strategy
  stickySession : Bool
  sessionStore : List (String × String)
  roundRobinIndex : Nat
  weightedRoundRobinState : List String
  totalRequests : Nat
  distributionStats : List (String × Nat)
  deriving Repr, DecidableEq

def mkBalancer (strategy : Strategy) (stickySession : Bool) : Balancer :=
  { servers := []
    strategy := strategy
    stickySession := stickySession
    sessionStore := []
    roundRobinIndex := 0
    weightedRoundRobinState := []
    totalRequests := 0
    distributionStats := [] }

/-- `Map.get` on the server registry. -/
def findById (servers : List BackendServer) (id : String) : Option BackendServer :=
  servers.find? (fun s => s.id = id)

/-- `Map.set` on the server registry: overwrite in place, or append. -/
def setById (servers : List BackendServer) (srv : BackendServer) : List BackendServer :=
  match servers with
  | [] => [srv]
  | a :: rest => if a.id = srv.id then srv :: rest else a :: setById rest srv

/-- `Map.get` on a string-keyed association list. -/
def lookupStr (l : List (String × String)) (k : String) : Option String :=
  (l.find? (fun p => p.1 = k)).map Prod.snd

/-- `Map.set` on a string-keyed association list. -/
def setStr (l : List (String × String)) (k v : String) : List (String × String) :=
  match l with
  | [] => [(k, v)]
  | a :: rest => if a.1 = k then (k, v) :: rest else a :: setStr rest k v

/-- `Map.set(id, 0)` on `distributionStats`. -/
def setStatZero (l : List (String × Nat)) (k : String) : List (String × Nat) :=
  match l with
  | [] => [(k, 0)]
  | a :: rest => if a.1 = k then (k, 0) :: rest else a :: setStatZero rest k

/-- Increment `distributionStats.get(id)` (the id is present in every
reachable state, since `addServer` initialises it). -/
def bumpStat (l : List (String × Nat)) (k : String) : List (String × Nat) :=
  l.map (fun p => if p.1 = k then (p.1, p.2 + 1) else p)

/-- `reconfigureAlgorithms()`: clear the weighted sequence, reset the cursor. -/
def reconfigureAlgorithms (bal : Balancer) : Balancer :=
  { bal with weightedRoundRobinState := [], roundRobinIndex := 0 }

/-- `addServer(host, port, options)`: construct, `Map.set` (silently
replacing any entry with the same id), initialise the distribution counter,
and reconfigure the cursor-based algorithms.  Returns the new id. -/
def addServer (bal : Balancer) (host : String) (port : Nat) (opts : ServerOptions) :
    String × Balancer :=
  let server := mkServer host port opts
  let bal1 := { bal with
    servers := setById bal.servers server
    distributionStats := setStatZero bal.distributionStats server.id }
  (server.id, reconfigureAlgorithms bal1)

/-- `setServerEnabled(id, enabled)`: note that this does NOT call
`reconfigureAlgorithms`, so the weighted sequence and cursor survive. -/
def setServerEnabled (bal : Balancer) (id : String) (enabled : Bool) : Balancer :=
  { bal with servers :=
      bal.servers.map (fun s => if s.id = id then { s with enabled := enabled } else s) }

/-- `onRequestCompleted(serverId, success, responseTime)`. -/
def onRequestCompleted (bal : Balancer) (id : String) (success : Bool) (rt : ℚ) : Balancer :=
  match findById bal.servers id with
  | none => bal
  | some _ =>
    { bal with servers :=
        bal.servers.map (fun s =>
          if s.id = id then recordRequest (removeConnection s) success rt else s) }

/-- `hashString(str)`: the polynomial 31-multiplier hash with JavaScript
32-bit signed integer wrapping, then `Math.abs`. -/
def toInt32 (n : Int) : Int := (n + 2 ^ 31) % 2 ^ 32 - 2 ^ 31

def hashStep (h : Int) (c : Nat) : Int := toInt32 (toInt32 (h * 32) - h + c)

def hashString (s : String) : Nat :=
  (s.data.foldl (fun h ch => hashStep h ch.toNat) 0).natAbs

/-- Truthiness of an optional string (JS: missing and empty are falsy). -/
def truthy (o : Option String) : Bool :=
  match o with
  | some s => !s.isEmpty
  | none => false

/-- One Fisher-Yates swap step; out-of-range indices leave the list alone. -/
def swapIdx (l : List String) (i j : Nat) : List String :=
  match l[i]?, l[j]? with
  | some a, some b => (l.set i b).set j a
  | _, _ => l

/-- `shuffleArray(array)`: Fisher-Yates walk from the top index down to 1;
`rand i % (i+1)` models `Math.floor(Math.random() * (i + 1))`. -/
def shuffleAux (rand : Nat → Nat) (l : List String) : Nat → List String
  | 0 => l
  | i + 1 => shuffleAux rand (swapIdx l (i + 1) (rand (i + 1) % (i + 2))) i

def shuffleArray (rand : Nat → Nat) (l : List String) : List String :=
  shuffleAux rand l (l.length - 1)

/-- `buildWeightedRoundRobinState(servers)`: each id repeated `weight`
times, then shuffled once. -/
def buildWeighted (rand : Nat → Nat) (servers : List BackendServer) : List String :=
  shuffleArray rand (servers.flatMap (fun s => List.replicate s.weight s.id))

/-- `selectRoundRobin(servers)` picks `servers[index % length]`. -/
def rrPick (servers : List BackendServer) (idx : Nat) : Option BackendServer :=
  servers[idx % servers.length]?

/-- `Array.reduce` with the head as initial accumulator. -/
def reduceBy (better : BackendServer → BackendServer → Bool) :
    List BackendServer → Option BackendServer
  | [] => none
  | x :: xs => some (xs.foldl (fun acc cur => if better cur acc then cur else acc) x)

inductive SelectError where
  | noServersAvailable
  | internalFault
  deriving Repr, DecidableEq

structure ClientInfo where
  sessionId : Option String := none
  clientIp : Option String := none
  deriving Repr, DecidableEq

/-- The strategy dispatch of `selectServer`: returns the chosen server
plus the updated cursor and weighted sequence; `none` models the crash the
source would hit if a stale weighted id were no longer in the registry. -/
def strategyPick (bal : Balancer) (available : List BackendServer) (info : ClientInfo)
    (rand : Nat → Nat) : Option (BackendServer × Nat × List String) :=
  match bal.strategy with
  | Strategy.round_robin =>
      (rrPick available bal.roundRobinIndex).map
        (fun s => (s, bal.roundRobinIndex + 1, bal.weightedRoundRobinState))
  | Strategy.weighted_round_robin =>
      let wst := if bal.weightedRoundRobinState.length = 0
                 then buildWeighted rand available
                 else bal.weightedRoundRobinState
      if wst.length = 0 then
        (rrPick available bal.roundRobinIndex).map
          (fun s => (s, bal.roundRobinIndex + 1, wst))
      else
        match wst[bal.roundRobinIndex % wst.length]? with
        | some id =>
            match findById bal.servers id with
            | some srv => some (srv, bal.roundRobinIndex + 1, wst)
            | none => none
        | none => none
  | Strategy.least_connections =>
      (reduceBy (fun cur acc => cur.currentConnections < acc.currentConnections) available).map
        (fun s => (s, bal.roundRobinIndex, bal.weightedRoundRobinState))
  | Strategy.health_based =>
      (reduceBy (fun cur acc => getHealthScore acc < getHealthScore cur) available).map
        (fun s => (s, bal.roundRobinIndex, bal.weightedRoundRobinState))
  | Strategy.ip_hash =>
      if truthy info.clientIp then
        (available[hashString (info.clientIp.getD "") % available.length]?).map
          (fun s => (s, bal.roundRobinIndex, bal.weightedRoundRobinState))
      else
        (rrPick available bal.roundRobinIndex).map
          (fun s => (s, bal.roundRobinIndex + 1, bal.weightedRoundRobinState))

/-- The selection bookkeeping at the end of `selectServer`: global counter,
distribution counter, `addConnection` on the chosen entry. -/
def recordSelection (bal : Balancer) (srv : BackendServer) : BackendServer × Balancer :=
  (srv,
   { bal with
       totalRequests := bal.totalRequests + 1
       distributionStats := bumpStat bal.distributionStats srv.id
       servers := bal.servers.map (fun s => if s.id = srv.id then addConnection s else s) })

/-- The sticky-session lookup at the top of `selectServer`: applies only
when sticky sessions are on and a truthy session id is given, and only
when the bound backend is still registered and available. -/
def stickyChoice (bal : Balancer) (info : ClientInfo) : Option BackendServer :=
  if bal.stickySession && truthy info.sessionId then
    match lookupStr bal.sessionStore (info.sessionId.getD "") with
    | some sid =>
        match findById bal.servers sid with
        | some srv => if isAvailable srv then some srv else none
        | none => none
    | none => none
  else none

/-- `selectServer(clientInfo)`.  The returned `BackendServer` is the chosen
registry entry as it was at selection time (the state records its
incremented connection count). -/
def selectServer (bal : Balancer) (info : ClientInfo) (rand : Nat → Nat) :
    Except SelectError (BackendServer × Balancer) :=
  let available := bal.servers.filter (fun s => isAvailable s)
  if available.length = 0 then Except.error SelectError.noServersAvailable
  else
    match stickyChoice bal info with
    | some srv => Except.ok (recordSelection bal srv)
    | none =>
      match strategyPick bal available info rand with
      | none => Except.error SelectError.internalFault
      | some (srv, idx, wst) =>
        let bal1 := { bal with roundRobinIndex := idx, weightedRoundRobinState := wst }
        let bal2 := if bal1.stickySession && truthy info.sessionId
                    then { bal1 with
                             sessionStore := setStr bal1.sessionStore (info.sessionId.getD "") srv.id }
                    else bal1
        Except.ok (recordSelection bal2 srv)

/-- One selection step keeping only the state (used for M sequential
selections with an empty `clientInfo`). -/
def selStep (rand : Nat → Nat) (bal : Balancer) : Balancer :=
  match selectServer bal {} rand with
  | Except.ok p => p.2
  | Except.error _ => bal

/-- The balancer state after `k` sequential selections. -/
def stateAt (rand : Nat → Nat) (bal : Balancer) : Nat → Balancer
  | 0 => bal
  | k + 1 => selStep rand (stateAt rand bal k)

/-- The id selected at step `k` (the `k+1`-st call), if the call succeeds. -/
def selectedAt (rand : Nat → Nat) (bal : Balancer) (k : Nat) : Option String :=
  match selectServer (stateAt rand bal k) {} rand with
  | Except.ok p => some p.1.id
  | Except.error _ => none

/-! ### Event traces against a single backend entry -/

/-- A selection (`selectServer` choosing this backend, `addConnection`) or a
completion (`onRequestCompleted`: `removeConnection` then `recordRequest`). -/
inductive ConnEvent where
  | sel
  | comp (success : Bool) (rt : ℚ)
  deriving Repr, DecidableEq

def applyEvent (s : BackendServer) : ConnEvent → BackendServer
  | ConnEvent.sel => addConnection s
  | ConnEvent.comp success rt => recordRequest (removeConnection s) success rt

def runEvents (s : BackendServer) (es : List ConnEvent) : BackendServer :=
  es.foldl applyEvent s

def countSel (es : List ConnEvent) : Nat :=
  es.countP (fun e => match e with | ConnEvent.sel => true | _ => false)

def countComp (es : List ConnEvent) : Nat :=
  es.countP (fun e => match e with | ConnEvent.comp _ _ => true | _ => false)

/-- A sequence of `recordRequest` calls against one backend entry. -/
def runRecords (s : BackendServer) (es : List (Bool × ℚ)) : BackendServer :=
  es.foldl (fun s e => recordRequest s e.1 e.2) s

/-! ### Concrete states exercising the selection paths -/

/-- Two fresh backends under ROUND_ROBIN. -/
def exampleRR : Balancer :=
  (addServer (addServer (mkBalancer Strategy.round_robin false) "a" 1 {}).2 "b" 2 {}).2

/-- The outcome of one selection against `exampleRR` (the error branch is
unreachable: both backends are available). -/
def exampleRRPick : BackendServer × Balancer :=
  match selectServer exampleRR {} (fun _ => 0) with
  | Except.ok p => p
  | Except.error _ => (mkServer "x" 0 {}, exampleRR)

/-- Two fresh backends under WEIGHTED_ROUND_ROBIN. -/
def exampleWeighted : Balancer :=
  (addServer (addServer (mkBalancer Strategy.weighted_round_robin false) "a" 1 {}).2
    "b" 2 {}).2

/-- One weighted selection (which builds and caches the weighted sequence),
then backend `b:2` is disabled; `setServerEnabled` does not clear the
cached sequence. -/
def exampleWeightedStale : Balancer :=
  setServerEnabled
    (match selectServer exampleWeighted {} (fun _ => 1) with
     | Except.ok p => p.2
     | Except.error _ => exampleWeighted)
    "b:2" false

/-- Two fresh backends under IP_HASH. -/
def exampleIpHash : Balancer :=
  (addServer (addServer (mkBalancer Strategy.ip_hash false) "a" 1 {}).2 "b" 2 {}).2

/-- The same available set reached through a different history: a third
backend added and then disabled. -/
def exampleIpHash2 : Balancer :=
  setServerEnabled (addServer exampleIpHash "c" 3 {}).2 "c:3" false

end LB

/-! ## Helper lemmas -/

namespace LB

theorem one_le_jsOr (v : Option Nat) (d : Nat) (hd : 1 ≤ d) : 1 ≤ jsOr v d := by
  match v with
  | none => simpa [jsOr]
  | some 0 => simpa [jsOr]
  | some (n + 1) => simp [jsOr]

theorem findById_setById (l : List BackendServer) (s : BackendServer) :
    findById (setById l s) s.id = some s := by
  induction l with
  | nil => simp [findById, setById]
  | cons a rest ih =>
      by_cases h : a.id = s.id
      · simp [setById, h, findById]
      · simpa [setById, h, findById] using ih

theorem getSuccessRate_le_one (s : BackendServer)
    (hs : s.successfulRequests ≤ s.totalRequests) : getSuccessRate s ≤ 1 := by
  unfold getSuccessRate
  by_cases h : s.totalRequests = 0
  · simp [h]
  · have hpos : (0 : ℚ) < (s.totalRequests : ℚ) := by
      exact_mod_cast Nat.pos_of_ne_zero h
    simp only [h, if_false]
    rw [div_le_one hpos]
    exact_mod_cast hs

/-- Window contents after a positive sample: push, shift past capacity. -/
theorem recordRequest_responseTimes_of_pos (s : BackendServer) (b : Bool) (rt : ℚ)
    (h : 0 < rt) :
    (recordRequest s b rt).responseTimes =
      if maxResponseTimeHistory < (s.responseTimes ++ [rt]).length
      then (s.responseTimes ++ [rt]).tail else s.responseTimes ++ [rt] := by
  unfold recordRequest
  rw [if_pos h]

/-- After a positive sample the stored average is recomputed from the new
window. -/
theorem recordRequest_responseTime_of_pos (s : BackendServer) (b : Bool) (rt : ℚ)
    (h : 0 < rt) :
    (recordRequest s b rt).responseTime = getAverageResponseTime (recordRequest s b rt) := by
  unfold recordRequest getAverageResponseTime
  rw [if_pos h]

/-- A non-positive sample touches neither the window nor the stored average. -/
theorem recordRequest_of_nonpos (s : BackendServer) (b : Bool) (rt : ℚ)
    (h : ¬ 0 < rt) :
    (recordRequest s b rt).responseTimes = s.responseTimes ∧
    (recordRequest s b rt).responseTime = s.responseTime := by
  unfold recordRequest
  rw [if_neg h]
  exact ⟨rfl, rfl⟩

theorem getAverageResponseTime_congr (s t : BackendServer)
    (h : s.responseTimes = t.responseTimes) :
    getAverageResponseTime s = getAverageResponseTime t := by
  unfold getAverageResponseTime
  rw [h]

/-- `recordRequest` preserves both rolling-window invariants: bounded
length, and the stored average being the mean of the current window. -/
theorem recordRequest_window_invariant (s : BackendServer) (b : Bool) (rt : ℚ)
    (h0 : s.responseTimes.length ≤ 100)
    (havg : s.responseTime = getAverageResponseTime s) :
    (recordRequest s b rt).responseTimes.length ≤ 100 ∧
    (recordRequest s b rt).responseTime = getAverageResponseTime (recordRequest s b rt) := by
  by_cases hrt : 0 < rt
  · refine ⟨?_, recordRequest_responseTime_of_pos s b rt hrt⟩
    rw [recordRequest_responseTimes_of_pos s b rt hrt]
    simp only [maxResponseTimeHistory]
    by_cases hlong : 100 < (s.responseTimes ++ [rt]).length
    · rw [if_pos hlong]
      simp only [List.length_tail, List.length_append, List.length_cons, List.length_nil] at hlong ⊢
      omega
    · rw [if_neg hlong]
      simp only [List.length_append, List.length_cons, List.length_nil] at hlong ⊢
      omega
  · obtain ⟨hw, ha⟩ := recordRequest_of_nonpos s b rt hrt
    refine ⟨by rw [hw]; exact h0, ?_⟩
    rw [ha, havg]
    exact getAverageResponseTime_congr s _ hw.symm

theorem window_invariant (es : List (Bool × ℚ)) :
    ∀ s0 : BackendServer, s0.responseTimes.length ≤ 100 →
    s0.responseTime = getAverageResponseTime s0 →
    (runRecords s0 es).responseTimes.length ≤ 100 ∧
    (runRecords s0 es).responseTime = getAverageResponseTime (runRecords s0 es) := by
  induction es with
  | nil => intro s0 h0 havg; exact ⟨h0, havg⟩
  | cons e rest ih =>
      intro s0 h0 havg
      have step := recordRequest_window_invariant s0 e.1 e.2 h0 havg
      simpa [runRecords] using ih (recordRequest s0 e.1 e.2) step.1 step.2

end LB

open Resilient LB

/-! ## Claim theorems -/

/-- C10: a freshly constructed `BackendServer` has health UNKNOWN and zero
recorded requests, `getSuccessRate()` returns 1, `isAvailable()` returns
true (so it is selectable immediately after `addServer`, before any health
probe), and 1 is the maximal success rate any backend can report. -/
theorem fresh_server_selectable (host : String) (port : Nat) (opts : ServerOptions)
    (s : BackendServer) (hs : s.successfulRequests ≤ s.totalRequests) :
    getSuccessRate (mkServer host port opts) = 1 ∧
    isAvailable (mkServer host port opts) = true ∧
    (mkServer host port opts).health = Health.unknown ∧
    (mkServer host port opts).totalRequests = 0 ∧
    getSuccessRate s ≤ 1 := by
  refine ⟨by simp [getSuccessRate, mkServer], ?_, rfl, rfl, getSuccessRate_le_one s hs⟩
  have h1 : 1 ≤ jsOr opts.maxConnections 100 := one_le_jsOr _ _ (by norm_num)
  have h2 : (0 : Int) < ((jsOr opts.maxConnections 100 : Nat) : Int) := by exact_mod_cast h1
  simp [isAvailable, mkServer, h2]

theorem fresh_server_selectable_witness :
    (mkServer "h" 1 {}).successfulRequests ≤ (mkServer "h" 1 {}).totalRequests ∧
    getSuccessRate (mkServer "h" 1 {}) = 1 :=
  ⟨by decide, (fresh_server_selectable "h" 1 {} (mkServer "h" 1 {}) (by decide)).1⟩

/-- C7 counterexample: the claim asserts the synthetic circuit-open error
kind is outside the retryable set and distinguishable from UNAVAILABLE; in
the source (`error.code = GrpcErrorCodes.UNAVAILABLE`) it IS the
UNAVAILABLE code, which is in the default retryable set, so `shouldRetry`
reports it retryable. -/
theorem circuit_open_code_counterexample :
    circuitOpenErrorCode ∈ defaultRetryConfig.retryableErrors ∧
    shouldRetry defaultRetryConfig circuitOpenErrorCode = true ∧
    circuitOpenErrorCode = UNAVAILABLE := by
  refine ⟨?_, rfl, rfl⟩
  decide

/-- C7 (amended): the synthetic error produced when the breaker is OPEN
carries status code UNAVAILABLE, which IS in the executor's default
retryable set (`shouldRetry` returns true for it); it is therefore not
distinguishable by code from a genuine backend-reported Unavailable
failure. -/
theorem circuit_open_error_code_is_unavailable :
    (call defaultRetryConfig
        { enabled := true, failureThreshold := 5, resetTimeout := 30000,
          state := CBState.OPEN, failures := 5, lastFailureTime := some 1000 }
        2000 (fun _ => some INTERNAL) (fun _ => 0)).1.result
      = CallResult.circuitOpenFast UNAVAILABLE ∧
    (call defaultRetryConfig
        { enabled := true, failureThreshold := 5, resetTimeout := 30000,
          state := CBState.OPEN, failures := 5, lastFailureTime := some 1000 }
        2000 (fun _ => some INTERNAL) (fun _ => 0)).1.invocations = 0 ∧
    shouldRetry defaultRetryConfig circuitOpenErrorCode = true ∧
    circuitOpenErrorCode = UNAVAILABLE := by
  refine ⟨by decide, by decide, rfl, rfl⟩

/-- C6 counterexample: `addServer` on an id already present neither fails
nor preserves the entry — the second `addServer("h", 1)` resets the entry's
accumulated `totalRequests` from 1 back to 0. -/
theorem addServer_duplicate_counterexample :
    (findById (onRequestCompleted
        (addServer (mkBalancer Strategy.round_robin false) "h" 1 {}).2
        "h:1" true 5).servers "h:1").map BackendServer.totalRequests = some 1 ∧
    (findById (addServer (onRequestCompleted
        (addServer (mkBalancer Strategy.round_robin false) "h" 1 {}).2
        "h:1" true 5) "h" 1 {}).2.servers "h:1").map BackendServer.totalRequests
      = some 0 := by
  refine ⟨by decide, by decide⟩

/-- C6 (amended): `addServer(host, port, options)` assigns the derived id
`host:port` and never fails; when a server with that id is already present
the registry entry is silently replaced by a freshly constructed server,
discarding the accumulated statistics. -/
theorem addServer_assigns_id_and_overwrites (bal : Balancer) (host : String) (port : Nat)
    (opts : ServerOptions) :
    (addServer bal host port opts).1 = host ++ ":" ++ toString port ∧
    findById (addServer bal host port opts).2.servers (host ++ ":" ++ toString port)
      = some (mkServer host port opts) ∧
    (mkServer host port opts).totalRequests = 0 ∧
    (mkServer host port opts).successfulRequests = 0 ∧
    (mkServer host port opts).responseTimes = [] := by
  refine ⟨rfl, ?_, rfl, rfl, rfl⟩
  have h : (host ++ ":" ++ toString port) = (mkServer host port opts).id := rfl
  rw [h]
  simpa [addServer, reconfigureAlgorithms] using
    findById_setById bal.servers (mkServer host port opts)

/-- C9 counterexample: a `recordRequestEnd` with `responseTimeMs = 0` does
NOT append its sample to the rolling window (the push is guarded by
`responseTime > 0`). -/
theorem zero_sample_not_appended_counterexample :
    ¬ ((recordRequest (mkServer "h" 1 {}) false 0).responseTimes
        = (mkServer "h" 1 {}).responseTimes ++ [0]) := by
  decide

/-- C9 (amended): starting from a fresh server, after any sequence of
`recordRequest` calls the rolling window holds at most 100 samples and the
stored average response time is the arithmetic mean of the window; every
`recordRequest` with a POSITIVE sample appends it with FIFO eviction of the
oldest sample past capacity 100, while a non-positive sample leaves the
window unchanged. -/
theorem rolling_window_fifo_and_mean (host : String) (port : Nat) (opts : ServerOptions)
    (es : List (Bool × ℚ)) (b b2 : Bool) (rt rt2 : ℚ) (s : BackendServer)
    (hsdef : s = runRecords (mkServer host port opts) es)
    (hrt : 0 < rt) (hrt2 : rt2 ≤ 0) :
    s.responseTimes.length ≤ 100 ∧
    s.responseTime =
      (if s.responseTimes.length = 0 then 0 else s.responseTimes.sum / s.responseTimes.length) ∧
    (recordRequest s b rt).responseTimes =
      (if (s.responseTimes ++ [rt]).length ≤ 100 then s.responseTimes ++ [rt]
       else (s.responseTimes ++ [rt]).tail) ∧
    (recordRequest s b2 rt2).responseTimes = s.responseTimes := by
  have base := window_invariant es (mkServer host port opts) (by simp [mkServer])
    (by simp [mkServer, getAverageResponseTime])
  rw [← hsdef] at base
  refine ⟨base.1, by simpa [getAverageResponseTime] using base.2, ?_, ?_⟩
  · rw [recordRequest_responseTimes_of_pos s b rt hrt]
    simp only [maxResponseTimeHistory]
    by_cases hlong : 100 < (s.responseTimes ++ [rt]).length
    · rw [if_pos hlong, if_neg (by omega)]
    · rw [if_neg hlong, if_pos (by omega)]
  · exact (recordRequest_of_nonpos s b2 rt2 (not_lt.mpr hrt2)).1

theorem rolling_window_fifo_and_mean_witness :
    (0 : ℚ) < 3 ∧ (-1 : ℚ) ≤ 0 ∧
    (runRecords (mkServer "h" 1 {}) [(true, 5)]).responseTimes.length ≤ 100 :=
  ⟨by norm_num, by norm_num,
   (rolling_window_fifo_and_mean "h" 1 {} [(true, 5)] true false 3 (-1)
      (runRecords (mkServer "h" 1 {}) [(true, 5)]) rfl (by norm_num) (by norm_num)).1⟩

/-! ## Retry loop lemmas -/

namespace Resilient

theorem callLoopAux_success (cfg : RetryConfig) (rnd : Nat → ℚ) :
    ∀ r, callLoopAux cfg (fun _ => none) rnd 0 r = (1, [], none) := by
  intro r
  cases r with
  | zero => simp [callLoopAux]
  | succ r => simp [callLoopAux]

theorem callLoopAux_fail_retryable (cfg : RetryConfig) (rnd : Nat → ℚ) (c : Nat)
    (hret : shouldRetry cfg c = true) :
    ∀ r a, callLoopAux cfg (fun _ => some c) rnd a r =
      (r + 1,
       (if a = 0 then ([] : List ℚ) else [calculateDelay cfg rnd a])
         ++ (List.range r).map (fun i => calculateDelay cfg rnd (a + 1 + i)),
       some c) := by
  intro r
  induction r with
  | zero =>
      intro a
      simp [callLoopAux]
  | succ r ih =>
      intro a
      have hmap : (List.range (r + 1)).map (fun i => calculateDelay cfg rnd (a + 1 + i))
          = calculateDelay cfg rnd (a + 1)
              :: (List.range r).map (fun i => calculateDelay cfg rnd (a + 1 + 1 + i)) := by
        rw [List.range_succ_eq_map, List.map_cons, List.map_map]
        refine congrArg₂ List.cons (by rw [Nat.add_zero]) ?_
        refine List.map_congr_left (fun i _ => ?_)
        have h : a + 1 + Nat.succ i = a + 1 + 1 + i := by omega
        simp only [Function.comp_apply, h]
      simp only [callLoopAux, hret, if_true, ih (a + 1)]
      simp [hmap]

theorem callLoopAux_fail_nonretryable (cfg : RetryConfig) (rnd : Nat → ℚ) (c : Nat)
    (hnret : shouldRetry cfg c = false) :
    ∀ r a, callLoopAux cfg (fun _ => some c) rnd a r =
      (1, (if a = 0 then ([] : List ℚ) else [calculateDelay cfg rnd a]), some c) := by
  intro r a
  cases r with
  | zero => simp [callLoopAux]
  | succ r => simp [callLoopAux, hnret]

theorem callLoopAux_fail_result (cfg : RetryConfig) (rnd : Nat → ℚ) (c : Nat) :
    ∀ r a, (callLoopAux cfg (fun _ => some c) rnd a r).2.2 = some c ∧
      1 ≤ (callLoopAux cfg (fun _ => some c) rnd a r).1 := by
  intro r
  induction r with
  | zero => intro a; simp [callLoopAux]
  | succ r ih =>
      intro a
      by_cases h : shouldRetry cfg c
      · simp only [callLoopAux, h, if_true]
        exact ⟨(ih (a + 1)).1, by omega⟩
      · simp [callLoopAux, h]

/-- With the breaker CLOSED, a `call` against an always-failing transport
runs the full loop and ends with `onCallFailure`. -/
theorem call_closed_always_fail (cfg : RetryConfig) (cb : Breaker) (now : Nat)
    (rnd : Nat → ℚ) (c : Nat) (hstate : cb.state = CBState.CLOSED) :
    (call cfg cb now (fun _ => some c) rnd).2 = onCallFailure cb now ∧
    (call cfg cb now (fun _ => some c) rnd).1.result = CallResult.failedWith c ∧
    1 ≤ (call cfg cb now (fun _ => some c) rnd).1.invocations := by
  have hres := callLoopAux_fail_result cfg rnd c cfg.maxRetries 0
  by_cases he : cb.enabled <;>
    · obtain ⟨h1, h2⟩ := hres
      rcases hsome : callLoopAux cfg (fun _ => some c) rnd 0 cfg.maxRetries with ⟨n, ds, res⟩
      rw [hsome] at h1 h2
      simp only at h1 h2
      subst h1
      simp [call, isCircuitOpen, hstate, he, hsome, h2]

end Resilient

/-- C2: a `call` (breaker CLOSED) against a transport that always fails
with a retryable code issues exactly `maxRetries + 1` transport attempts,
and the delay slept before retry attempt `k` (1-based) is
`min(maxDelay, initialDelay * backoffMultiplier^(k-1))` plus the
non-negative jitter `rnd(k) * 1000`; against a non-retryable code exactly
one attempt is issued. -/
theorem retry_attempts_and_backoff (cfg : RetryConfig) (cb : Breaker) (now : Nat)
    (rnd : Nat → ℚ) (c c2 : Nat) (hstate : cb.state = CBState.CLOSED)
    (hret : shouldRetry cfg c = true) (hnret : shouldRetry cfg c2 = false) :
    (call cfg cb now (fun _ => some c) rnd).1.invocations = cfg.maxRetries + 1 ∧
    (call cfg cb now (fun _ => some c) rnd).1.delays
      = (List.range cfg.maxRetries).map (fun k =>
          ((min (cfg.initialDelay * cfg.backoffMultiplier ^ k) cfg.maxDelay : Nat) : ℚ)
            + rnd (k + 1) * 1000) ∧
    (call cfg cb now (fun _ => some c2) rnd).1.invocations = 1 := by
  have hloop : callLoopAux cfg (fun _ => some c) rnd 0 cfg.maxRetries
      = (cfg.maxRetries + 1,
         (List.range cfg.maxRetries).map (fun k =>
           ((min (cfg.initialDelay * cfg.backoffMultiplier ^ k) cfg.maxDelay : Nat) : ℚ)
             + rnd (k + 1) * 1000),
         some c) := by
    rw [callLoopAux_fail_retryable cfg rnd c hret cfg.maxRetries 0]
    simp only [if_pos rfl, List.nil_append]
    refine congrArg _ (congrArg₂ Prod.mk ?_ rfl)
    refine List.map_congr_left (fun i _ => ?_)
    have h : 0 + 1 + i = i + 1 := by omega
    rw [h]
    rfl
  have hloop2 : callLoopAux cfg (fun _ => some c2) rnd 0 cfg.maxRetries
      = (1, [], some c2) := by
    rw [callLoopAux_fail_nonretryable cfg rnd c2 hnret cfg.maxRetries 0]
    simp
  by_cases he : cb.enabled <;>
    exact ⟨by simp [call, isCircuitOpen, hstate, he, hloop],
           by simp [call, isCircuitOpen, hstate, he, hloop],
           by simp [call, isCircuitOpen, hstate, he, hloop2]⟩

theorem retry_attempts_and_backoff_witness :
    (mkBreaker true 5 30000).state = CBState.CLOSED ∧
    shouldRetry defaultRetryConfig UNAVAILABLE = true ∧
    shouldRetry defaultRetryConfig NOT_FOUND = false ∧
    (call defaultRetryConfig (mkBreaker true 5 30000) 0 (fun _ => some UNAVAILABLE)
        (fun _ => 0)).1.invocations = defaultRetryConfig.maxRetries + 1 ∧
    (call defaultRetryConfig (mkBreaker true 5 30000) 0 (fun _ => some NOT_FOUND)
        (fun _ => 0)).1.invocations = 1 := by
  have h := retry_attempts_and_backoff defaultRetryConfig (mkBreaker true 5 30000) 0
    (fun _ => 0) UNAVAILABLE NOT_FOUND rfl (by decide) (by decide)
  exact ⟨rfl, by decide, by decide, h.1, h.2.2⟩

/-! ## Circuit breaker lemmas -/

namespace Resilient

theorem onCallFailure_eq (cb : Breaker) (t : Nat) (he : cb.enabled = true) :
    onCallFailure cb t =
      (if cb.failureThreshold ≤ cb.failures + 1 then
        { cb with failures := cb.failures + 1, lastFailureTime := some t,
                  state := CBState.OPEN }
      else
        { cb with failures := cb.failures + 1, lastFailureTime := some t }) := by
  simp [onCallFailure, he]

/-- Terminal failures accumulate in the failure counter while the breaker
stays CLOSED, and the circuit opens exactly when the counter reaches the
threshold. -/
theorem callSeq_closed_failures (cfg : RetryConfig) (rnd : Nat → ℚ) (c th : Nat) :
    ∀ ts : List Nat, ∀ cb : Breaker, cb.enabled = true → cb.failureThreshold = th →
      cb.state = CBState.CLOSED → cb.failures < th → cb.failures + ts.length ≤ th →
      (callSeq cfg (fun _ => some c) rnd cb ts).failures = cb.failures + ts.length ∧
      (callSeq cfg (fun _ => some c) rnd cb ts).state =
        (if cb.failures + ts.length < th then CBState.CLOSED else CBState.OPEN) := by
  intro ts
  induction ts with
  | nil =>
      intro cb he hth hst hlt hle
      constructor
      · simp [callSeq]
      · simp only [callSeq, List.length_nil, Nat.add_zero]
        rw [hst, if_pos hlt]
  | cons t ts ih =>
      intro cb he hth hst hlt hle
      simp only [callSeq]
      rw [(call_closed_always_fail cfg cb t rnd c hst).1, onCallFailure_eq cb t he]
      by_cases hcase : th ≤ cb.failures + 1
      · rw [if_pos (by rw [hth]; exact hcase)]
        have hts : ts.length = 0 := by
          simp only [List.length_cons] at hle
          omega
        rw [List.length_eq_zero.mp hts]
        refine ⟨by simp [callSeq], ?_⟩
        simp only [callSeq, List.length_cons, List.length_nil]
        rw [if_neg (by omega)]
      · rw [if_neg (by rw [hth]; exact hcase)]
        have step := ih { cb with failures := cb.failures + 1, lastFailureTime := some t }
          he hth hst (show cb.failures + 1 < th by omega)
          (show cb.failures + 1 + ts.length ≤ th by
            simp only [List.length_cons] at hle; omega)
        refine ⟨?_, ?_⟩
        · rw [step.1]
          simp only [List.length_cons]
          omega
        · rw [step.2]
          simp only [List.length_cons]
          by_cases hlt2 : cb.failures + 1 + ts.length < th
          · rw [if_pos hlt2, if_pos (by omega)]
          · rw [if_neg hlt2, if_neg (by omega)]

end Resilient

/-- C1: the circuit breaker lifecycle.
(a) Starting CLOSED with zero failures, `k ≤ failureThreshold` consecutive
terminal call failures leave the failure count at `k`, and the breaker is
OPEN exactly when `k` reached the threshold;
(b) while OPEN with less than `resetTimeout` elapsed since the last failure,
a `call` issues zero transport invocations, fails fast with the synthetic
circuit-open error, and leaves the breaker unchanged;
(c) once `resetTimeout` has elapsed, `isCircuitOpen` lets the call through
in HALF_OPEN, the transport is invoked, and a success returns the breaker
to CLOSED with the failure count reset;
(d) a terminal failure of that HALF_OPEN call re-opens the breaker. -/
theorem circuit_breaker_lifecycle (cfg : RetryConfig) (rnd : Nat → ℚ)
    (c th rT f t k now1 now2 : Nat) (ts : List Nat) (cbO : Breaker)
    (hth : 1 ≤ th) (hk : k ≤ th) (hlen : ts.length = k)
    (hcbO : cbO = { enabled := true, failureThreshold := th, resetTimeout := rT,
                    state := CBState.OPEN, failures := f, lastFailureTime := some t })
    (hwin : now1 - t < rT) (helapsed : rT ≤ now2 - t) (hf : th ≤ f) :
    ((callSeq cfg (fun _ => some c) rnd (mkBreaker true th rT) ts).failures = k ∧
     (callSeq cfg (fun _ => some c) rnd (mkBreaker true th rT) ts).state =
       (if k < th then CBState.CLOSED else CBState.OPEN)) ∧
    ((call cfg cbO now1 (fun _ => some c) rnd).1.invocations = 0 ∧
     (call cfg cbO now1 (fun _ => some c) rnd).1.result
       = CallResult.circuitOpenFast circuitOpenErrorCode ∧
     (call cfg cbO now1 (fun _ => some c) rnd).2 = cbO) ∧
    ((isCircuitOpen cbO now2).1 = false ∧
     (isCircuitOpen cbO now2).2.state = CBState.HALF_OPEN ∧
     (call cfg cbO now2 (fun _ => none) rnd).1.invocations = 1 ∧
     (call cfg cbO now2 (fun _ => none) rnd).1.result = CallResult.ok ∧
     (call cfg cbO now2 (fun _ => none) rnd).2.state = CBState.CLOSED ∧
     (call cfg cbO now2 (fun _ => none) rnd).2.failures = 0) ∧
    ((call cfg cbO now2 (fun _ => some c) rnd).1.result = CallResult.failedWith c ∧
     1 ≤ (call cfg cbO now2 (fun _ => some c) rnd).1.invocations ∧
     (call cfg cbO now2 (fun _ => some c) rnd).2.state = CBState.OPEN) := by
  subst hcbO
  refine ⟨?_, ?_, ?_, ?_⟩
  · have h := callSeq_closed_failures cfg rnd c th ts (mkBreaker true th rT)
      rfl rfl rfl (by simp [mkBreaker]; omega) (by simp [mkBreaker, hlen]; omega)
    simpa [mkBreaker, hlen] using h
  · have hnot : ¬ rT ≤ now1 - t := not_le.mpr hwin
    refine ⟨?_, ?_, ?_⟩ <;> simp [call, isCircuitOpen, hnot]
  · have hok := callLoopAux_success cfg rnd cfg.maxRetries
    refine ⟨?_, ?_, ?_, ?_, ?_, ?_⟩ <;>
      simp [call, isCircuitOpen, helapsed, hok, onCallSuccess]
  · have hres := callLoopAux_fail_result cfg rnd c cfg.maxRetries 0
    rcases hsome : callLoopAux cfg (fun _ => some c) rnd 0 cfg.maxRetries with ⟨n, ds, res⟩
    rw [hsome] at hres
    simp only at hres
    obtain ⟨h1, h2⟩ := hres
    subst h1
    have hcond : th ≤ f + 1 := by omega
    refine ⟨?_, ?_, ?_⟩ <;>
      simp [call, isCircuitOpen, helapsed, hsome, onCallFailure, h2, hcond]

theorem circuit_breaker_lifecycle_witness :
    ((1 : Nat) ≤ 3 ∧ List.length [0, 1, 2] = 3 ∧ 100 - 10 < 30000 ∧
      30000 ≤ 40000 - 10 ∧ (3 : Nat) ≤ 3) ∧
    (callSeq defaultRetryConfig (fun _ => some 14) (fun _ => (0 : ℚ))
        (mkBreaker true 3 30000) [0, 1, 2]).state
      = (if 3 < 3 then CBState.CLOSED else CBState.OPEN) ∧
    (call defaultRetryConfig
        { enabled := true, failureThreshold := 3, resetTimeout := 30000,
          state := CBState.OPEN, failures := 3, lastFailureTime := some 10 }
        100 (fun _ => some 14) (fun _ => 0)).1.invocations = 0 ∧
    (call defaultRetryConfig
        { enabled := true, failureThreshold := 3, resetTimeout := 30000,
          state := CBState.OPEN, failures := 3, lastFailureTime := some 10 }
        40000 (fun _ => none) (fun _ => 0)).2.state = CBState.CLOSED ∧
    (call defaultRetryConfig
        { enabled := true, failureThreshold := 3, resetTimeout := 30000,
          state := CBState.OPEN, failures := 3, lastFailureTime := some 10 }
        40000 (fun _ => some 14) (fun _ => 0)).2.state = CBState.OPEN := by
  have h := circuit_breaker_lifecycle defaultRetryConfig (fun _ => 0) 14 3 30000 3 10 3 100 40000
    [0, 1, 2]
    { enabled := true, failureThreshold := 3, resetTimeout := 30000,
      state := CBState.OPEN, failures := 3, lastFailureTime := some 10 }
    (by norm_num) (by norm_num) rfl rfl (by norm_num) (by norm_num) (by norm_num)
  exact ⟨⟨by norm_num, rfl, by norm_num, by norm_num, by norm_num⟩,
    h.1.2, h.2.1.1, h.2.2.1.2.2.2.2.1, h.2.2.2.2.2⟩

/-! ## Connection accounting lemmas -/

namespace LB

theorem recordRequest_currentConnections (s : BackendServer) (b : Bool) (rt : ℚ) :
    (recordRequest s b rt).currentConnections = s.currentConnections := by
  unfold recordRequest
  by_cases h : 0 < rt
  · rw [if_pos h]
  · rw [if_neg h]

theorem applyEvent_nonneg (s : BackendServer) (e : ConnEvent)
    (h : 0 ≤ s.currentConnections) : 0 ≤ (applyEvent s e).currentConnections := by
  cases e with
  | sel => simp only [applyEvent, addConnection]; omega
  | comp b rt =>
      simp only [applyEvent, recordRequest_currentConnections, removeConnection]
      by_cases hc : 0 < s.currentConnections
      · rw [if_pos hc]; simp only; omega
      · rw [if_neg hc]; exact h

theorem runEvents_nonneg (es : List ConnEvent) :
    ∀ s : BackendServer, 0 ≤ s.currentConnections →
      0 ≤ (runEvents s es).currentConnections := by
  induction es with
  | nil => intro s h; exact h
  | cons e rest ih =>
      intro s h
      exact ih (applyEvent s e) (applyEvent_nonneg s e h)

theorem countSel_cons_sel (es : List ConnEvent) :
    countSel (ConnEvent.sel :: es) = countSel es + 1 := by
  simp [countSel, List.countP_cons]

theorem countSel_cons_comp (b : Bool) (rt : ℚ) (es : List ConnEvent) :
    countSel (ConnEvent.comp b rt :: es) = countSel es := by
  simp [countSel, List.countP_cons]

theorem countComp_cons_sel (es : List ConnEvent) :
    countComp (ConnEvent.sel :: es) = countComp es := by
  simp [countComp, List.countP_cons]

theorem countComp_cons_comp (b : Bool) (rt : ℚ) (es : List ConnEvent) :
    countComp (ConnEvent.comp b rt :: es) = countComp es + 1 := by
  simp [countComp, List.countP_cons]

/-- Under the prefix pairing discipline, the connection counter tracks the
difference of selection and completion counts exactly. -/
theorem runEvents_conn_eq (es : List ConnEvent) :
    ∀ s : BackendServer,
      (∀ m, m ≤ es.length →
        (countComp (es.take m) : Int) ≤ s.currentConnections + countSel (es.take m)) →
      (runEvents s es).currentConnections
        = s.currentConnections + countSel es - countComp es := by
  induction es with
  | nil =>
      intro s _
      simp [runEvents, countSel, countComp]
  | cons e rest ih =>
      intro s hpre
      cases e with
      | sel =>
          have hpre' : ∀ m, m ≤ rest.length →
              (countComp (rest.take m) : Int)
                ≤ (applyEvent s ConnEvent.sel).currentConnections + countSel (rest.take m) := by
            intro m hm
            have := hpre (m + 1) (by simp only [List.length_cons]; omega)
            simp only [List.take_succ_cons, countSel_cons_sel, countComp_cons_sel] at this
            simp only [applyEvent, addConnection]
            push_cast at this ⊢
            omega
          have := ih (applyEvent s ConnEvent.sel) hpre'
          simp only [runEvents, List.foldl_cons] at this ⊢
          rw [this]
          simp only [applyEvent, addConnection, countSel_cons_sel, countComp_cons_sel]
          push_cast
          ring
      | comp b rt =>
          have hc : 0 < s.currentConnections := by
            have h1 := hpre 1 (by simp only [List.length_cons]; omega)
            simp only [List.take_succ_cons, List.take_zero] at h1
            rw [countSel_cons_comp, countComp_cons_comp] at h1
            simp only [countSel, countComp, List.countP_nil] at h1
            push_cast at h1
            omega
          have happ : (applyEvent s (ConnEvent.comp b rt)).currentConnections
              = s.currentConnections - 1 := by
            simp only [applyEvent, recordRequest_currentConnections, removeConnection,
              if_pos hc]
          have hpre' : ∀ m, m ≤ rest.length →
              (countComp (rest.take m) : Int)
                ≤ (applyEvent s (ConnEvent.comp b rt)).currentConnections
                    + countSel (rest.take m) := by
            intro m hm
            have := hpre (m + 1) (by simp only [List.length_cons]; omega)
            simp only [List.take_succ_cons, countSel_cons_comp, countComp_cons_comp] at this
            rw [happ]
            push_cast at this ⊢
            omega
          have := ih (applyEvent s (ConnEvent.comp b rt)) hpre'
          simp only [runEvents, List.foldl_cons] at this ⊢
          rw [this, happ]
          simp only [countSel_cons_comp, countComp_cons_comp]
          push_cast
          ring

end LB

/-- C4: starting from a fresh backend entry, `currentConnections` is never
negative after any sequence of selections and completions; and when every
completion in the sequence is matched by an earlier selection (prefix
discipline — the 1:1 pairing of the spec), at every snapshot
`currentConnections` equals the number of selections minus the number of
completions so far. -/
theorem connection_accounting_invariant (host : String) (port : Nat) (opts : ServerOptions)
    (es : List ConnEvent) (n : Nat) :
    0 ≤ (runEvents (mkServer host port opts) (es.take n)).currentConnections ∧
    ((∀ m, m ≤ es.length → countComp (es.take m) ≤ countSel (es.take m)) →
      (runEvents (mkServer host port opts) (es.take n)).currentConnections
        = (countSel (es.take n) : Int) - countComp (es.take n)) := by
  constructor
  · exact runEvents_nonneg (es.take n) (mkServer host port opts) (by simp [mkServer])
  · intro hpair
    have hall : ∀ m, countComp (es.take m) ≤ countSel (es.take m) := by
      intro m
      by_cases hm : m ≤ es.length
      · exact hpair m hm
      · rw [List.take_of_length_le (by omega), ← List.take_length (l := es)]
        exact hpair es.length (le_refl _)
    have h := runEvents_conn_eq (es.take n) (mkServer host port opts) ?_
    · rw [h]
      simp [mkServer]
    · intro m _
      rw [List.take_take]
      have := hall (min m n)
      simp only [mkServer]
      omega

theorem connection_accounting_invariant_witness :
    (∀ m, m ≤ (([ConnEvent.sel, ConnEvent.sel, ConnEvent.comp true 5] : List ConnEvent)).length →
      countComp ([ConnEvent.sel, ConnEvent.sel, ConnEvent.comp true 5].take m)
        ≤ countSel ([ConnEvent.sel, ConnEvent.sel, ConnEvent.comp true 5].take m)) ∧
    (runEvents (mkServer "h" 1 {})
        ([ConnEvent.sel, ConnEvent.sel, ConnEvent.comp true 5].take 3)).currentConnections
      = (countSel ([ConnEvent.sel, ConnEvent.sel, ConnEvent.comp true 5].take 3) : Int)
          - countComp ([ConnEvent.sel, ConnEvent.sel, ConnEvent.comp true 5].take 3) := by
  refine ⟨by decide, ?_⟩
  exact (connection_accounting_invariant "h" 1 {}
    [ConnEvent.sel, ConnEvent.sel, ConnEvent.comp true 5] 3).2 (by decide)

/-! ## Selection membership lemmas -/

namespace LB

theorem rrPick_mem (l : List BackendServer) (i : Nat) (s : BackendServer)
    (h : rrPick l i = some s) : s ∈ l := by
  unfold rrPick at h
  exact List.getElem?_mem h

theorem foldl_choice_mem (better : BackendServer → BackendServer → Bool) :
    ∀ (xs : List BackendServer) (x : BackendServer),
      xs.foldl (fun acc cur => if better cur acc then cur else acc) x ∈ x :: xs := by
  intro xs
  induction xs with
  | nil => intro x; simp
  | cons y ys ih =>
      intro x
      simp only [List.foldl_cons]
      by_cases hb : better y x
      · rw [if_pos hb]
        rcases List.mem_cons.mp (ih y) with h1 | h1
        · rw [h1]
          exact List.mem_cons_of_mem x (List.mem_cons_self y ys)
        · exact List.mem_cons_of_mem x (List.mem_cons_of_mem y h1)
      · rw [if_neg hb]
        rcases List.mem_cons.mp (ih x) with h1 | h1
        · rw [h1]
          exact List.mem_cons_self x _
        · exact List.mem_cons_of_mem x (List.mem_cons_of_mem y h1)

theorem reduceBy_mem (better : BackendServer → BackendServer → Bool)
    (l : List BackendServer) (s : BackendServer) (h : reduceBy better l = some s) :
    s ∈ l := by
  cases l with
  | nil => simp [reduceBy] at h
  | cons x xs =>
      simp only [reduceBy, Option.some.injEq] at h
      rw [← h]
      exact foldl_choice_mem better xs x

theorem strategyPick_mem (bal : Balancer) (available : List BackendServer)
    (info : ClientInfo) (rand : Nat → Nat) (s : BackendServer) (idx : Nat)
    (wst : List String) (hstrat : bal.strategy ≠ Strategy.weighted_round_robin)
    (h : strategyPick bal available info rand = some (s, idx, wst)) : s ∈ available := by
  unfold strategyPick at h
  cases hst : bal.strategy <;> rw [hst] at h
  case weighted_round_robin => exact absurd hst hstrat
  case round_robin =>
      rw [Option.map_eq_some'] at h
      obtain ⟨t, ht, hf⟩ := h
      have hts : t = s := congrArg Prod.fst hf
      rw [← hts]
      exact rrPick_mem available bal.roundRobinIndex t ht
  case least_connections =>
      rw [Option.map_eq_some'] at h
      obtain ⟨t, ht, hf⟩ := h
      have hts : t = s := congrArg Prod.fst hf
      rw [← hts]
      exact reduceBy_mem _ available t ht
  case health_based =>
      rw [Option.map_eq_some'] at h
      obtain ⟨t, ht, hf⟩ := h
      have hts : t = s := congrArg Prod.fst hf
      rw [← hts]
      exact reduceBy_mem _ available t ht
  case ip_hash =>
      by_cases htr : truthy info.clientIp
      · rw [if_pos htr, Option.map_eq_some'] at h
        obtain ⟨t, ht, hf⟩ := h
        have hts : t = s := congrArg Prod.fst hf
        rw [← hts]
        exact List.getElem?_mem ht
      · rw [if_neg htr, Option.map_eq_some'] at h
        obtain ⟨t, ht, hf⟩ := h
        have hts : t = s := congrArg Prod.fst hf
        rw [← hts]
        exact rrPick_mem available bal.roundRobinIndex t ht

theorem stickyChoice_available (bal : Balancer) (info : ClientInfo) (srv : BackendServer)
    (h : stickyChoice bal info = some srv) : isAvailable srv = true := by
  unfold stickyChoice at h
  by_cases hg : bal.stickySession && truthy info.sessionId
  · rw [if_pos hg] at h
    cases hl : lookupStr bal.sessionStore (info.sessionId.getD "") with
    | none => simp only [hl] at h; exact absurd h (by simp)
    | some sid =>
        simp only [hl] at h
        cases hf : findById bal.servers sid with
        | none => simp only [hf] at h; exact absurd h (by simp)
        | some srv0 =>
            simp only [hf] at h
            by_cases ha : isAvailable srv0
            · rw [if_pos ha] at h
              injection h with h1
              rw [← h1]
              exact ha
            · rw [if_neg ha] at h
              exact absurd h (by simp)
  · rw [if_neg hg] at h
    exact absurd h (by simp)

end LB

namespace LB

theorem selectServer_cases (bal : Balancer) (info : ClientInfo) (rand : Nat → Nat)
    (hne : bal.servers.filter (fun s => isAvailable s) ≠ []) :
    (∀ srv bal2, selectServer bal info rand = Except.ok (srv, bal2) →
      (bal.strategy ≠ Strategy.weighted_round_robin → isAvailable srv = true)) ∧
    selectServer bal info rand ≠ Except.error SelectError.noServersAvailable := by
  have hlen : ¬ (bal.servers.filter (fun s => isAvailable s)).length = 0 :=
    fun hh => hne (List.length_eq_zero.mp hh)
  constructor
  · intro srv bal2 hok hstrat
    unfold selectServer at hok
    rw [if_neg hlen] at hok
    cases hst : stickyChoice bal info with
    | some srv0 =>
        simp only [hst] at hok
        injection hok with h1
        have h2 := congrArg Prod.fst h1
        simp only [recordSelection] at h2
        rw [← h2]
        exact stickyChoice_available bal info srv0 hst
    | none =>
        simp only [hst] at hok
        cases hpick : strategyPick bal (bal.servers.filter (fun s => isAvailable s))
            info rand with
        | none =>
            simp only [hpick] at hok
            exact Except.noConfusion hok
        | some trip =>
            obtain ⟨srv0, idx, wst⟩ := trip
            simp only [hpick] at hok
            injection hok with h1
            have h2 := congrArg Prod.fst h1
            simp only [recordSelection] at h2
            rw [← h2]
            have hmem := strategyPick_mem bal (bal.servers.filter (fun s => isAvailable s))
              info rand srv0 idx wst hstrat hpick
            simpa using (List.mem_filter.mp hmem).2
  · intro hbad
    unfold selectServer at hbad
    rw [if_neg hlen] at hbad
    cases hst : stickyChoice bal info with
    | some srv0 =>
        simp only [hst] at hbad
        exact Except.noConfusion hbad
    | none =>
        simp only [hst] at hbad
        cases hpick : strategyPick bal (bal.servers.filter (fun s => isAvailable s))
            info rand with
        | none =>
            simp only [hpick] at hbad
            injection hbad with h2
            exact SelectError.noConfusion h2
        | some trip =>
            obtain ⟨srv0, idx, wst⟩ := trip
            simp only [hpick] at hbad
            exact Except.noConfusion hbad

end LB

/-- C3 counterexample: under WEIGHTED_ROUND_ROBIN the cached weighted
sequence survives `setServerEnabled`, so after one selection and disabling
backend `b:2`, `selectServer` succeeds yet returns the disabled (hence
unavailable) backend `b:2` — refuting the claim that a successful
selection always satisfies the availability predicate. -/
theorem weighted_stale_selects_unavailable_counterexample :
    (selectServer exampleWeightedStale {} (fun _ => 1)).toOption.map
        (fun p => (p.1.id, isAvailable p.1))
      = some ("b:2", false) := by
  decide

/-- C3 (amended): `selectServer` fails with `NoServersAvailable` if and
only if no registered server is available (for every strategy); and for
every strategy other than WEIGHTED_ROUND_ROBIN, a successful selection
returns a server satisfying the availability predicate.  (Under
WEIGHTED_ROUND_ROBIN the cached weighted sequence may be stale and an
unavailable server can be returned.) -/
theorem selectServer_noservers_iff_and_available (bal : Balancer) (info : ClientInfo)
    (rand : Nat → Nat) :
    ((selectServer bal info rand = Except.error SelectError.noServersAvailable) ↔
      bal.servers.filter (fun s => isAvailable s) = []) ∧
    (bal.strategy ≠ Strategy.weighted_round_robin →
      ∀ srv bal2, selectServer bal info rand = Except.ok (srv, bal2) →
        isAvailable srv = true) := by
  by_cases hne : bal.servers.filter (fun s => isAvailable s) = []
  · have herr : selectServer bal info rand = Except.error SelectError.noServersAvailable := by
      unfold selectServer
      rw [if_pos (by rw [hne]; rfl)]
    constructor
    · exact ⟨fun _ => hne, fun _ => herr⟩
    · intro _ srv bal2 hok
      rw [herr] at hok
      exact Except.noConfusion hok
  · have h := selectServer_cases bal info rand hne
    constructor
    · constructor
      · intro hq
        exact absurd hq h.2
      · intro hq
        exact absurd hq hne
    · intro hstrat srv bal2 hok
      exact h.1 srv bal2 hok hstrat

theorem selectServer_noservers_iff_and_available_witness :
    exampleRR.strategy ≠ Strategy.weighted_round_robin ∧
    isAvailable exampleRRPick.1 = true :=
  ⟨by decide,
   (selectServer_noservers_iff_and_available exampleRR {} (fun _ => 0)).2 (by decide)
     exampleRRPick.1 exampleRRPick.2 rfl⟩

/-! ## IP-hash determinism -/

namespace LB

/-- With strategy IP_HASH, no session id, and a truthy client ip, the
selection is `available[hashString(ip) % available.length]`, independent of
the shuffle randomness and of any cursor state. -/
theorem selectServer_ip_hash (bal : Balancer) (info : ClientInfo) (rand : Nat → Nat)
    (ip : String) (hstrat : bal.strategy = Strategy.ip_hash)
    (hip : info.clientIp = some ip) (hne : ip.isEmpty = false)
    (hsid : info.sessionId = none)
    (hav : bal.servers.filter (fun s => isAvailable s) ≠ []) :
    (selectServer bal info rand).toOption.map Prod.fst
      = (bal.servers.filter (fun s => isAvailable s))[hashString ip %
          (bal.servers.filter (fun s => isAvailable s)).length]? := by
  have hlen : ¬ (bal.servers.filter (fun s => isAvailable s)).length = 0 :=
    fun hh => hav (List.length_eq_zero.mp hh)
  have hsticky : stickyChoice bal info = none := by
    unfold stickyChoice
    rw [hsid]
    simp [truthy]
  have htruthy : truthy info.clientIp = true := by
    rw [hip]
    simp [truthy, hne]
  have hidx : hashString ip % (bal.servers.filter (fun s => isAvailable s)).length
      < (bal.servers.filter (fun s => isAvailable s)).length :=
    Nat.mod_lt _ (Nat.pos_of_ne_zero hlen)
  have hget : (bal.servers.filter (fun s => isAvailable s))[hashString ip %
      (bal.servers.filter (fun s => isAvailable s)).length]?
      = some ((bal.servers.filter (fun s => isAvailable s)).get
          ⟨hashString ip % (bal.servers.filter (fun s => isAvailable s)).length, hidx⟩) :=
    List.getElem?_eq_getElem hidx
  unfold selectServer
  rw [if_neg hlen, hsticky]
  unfold strategyPick
  rw [hstrat, if_pos htruthy, hip]
  simp only [Option.getD_some, hget, Option.map_some']
  simp only [Except.toOption, Option.map_some', recordSelection]

end LB

/-- C8: with strategy IP_HASH, a fixed available list, and a non-empty
client ip (no session id), two `selectServer` calls against balancer states
sharing that available list return the same backend — namely
`available[hashString(clientIp) % N]`, for the pure polynomial string hash
of the source; internal cursors and the shuffle randomness are irrelevant. -/
theorem ip_hash_deterministic (b1 b2 : Balancer) (info : ClientInfo) (r1 r2 : Nat → Nat)
    (ip : String)
    (h1 : b1.strategy = Strategy.ip_hash) (h2 : b2.strategy = Strategy.ip_hash)
    (hip : info.clientIp = some ip) (hne : ip.isEmpty = false)
    (hsid : info.sessionId = none)
    (hav : b1.servers.filter (fun s => isAvailable s)
            = b2.servers.filter (fun s => isAvailable s))
    (hnonempty : b1.servers.filter (fun s => isAvailable s) ≠ []) :
    (selectServer b1 info r1).toOption.map Prod.fst
        = (b1.servers.filter (fun s => isAvailable s))[hashString ip %
            (b1.servers.filter (fun s => isAvailable s)).length]? ∧
    (selectServer b2 info r2).toOption.map Prod.fst
        = (b1.servers.filter (fun s => isAvailable s))[hashString ip %
            (b1.servers.filter (fun s => isAvailable s)).length]? ∧
    (selectServer b1 info r1).toOption.map Prod.fst
        = (selectServer b2 info r2).toOption.map Prod.fst := by
  have e1 := selectServer_ip_hash b1 info r1 ip h1 hip hne hsid hnonempty
  have e2 := selectServer_ip_hash b2 info r2 ip h2 hip hne hsid (by rw [← hav]; exact hnonempty)
  rw [← hav] at e2
  exact ⟨e1, e2, by rw [e1, e2]⟩

theorem ip_hash_deterministic_witness :
    (exampleIpHash.strategy = Strategy.ip_hash ∧
     exampleIpHash2.strategy = Strategy.ip_hash ∧
     ("10.0.0.1" : String).isEmpty = false ∧
     exampleIpHash.servers.filter (fun s => isAvailable s)
       = exampleIpHash2.servers.filter (fun s => isAvailable s) ∧
     exampleIpHash.servers.filter (fun s => isAvailable s) ≠ []) ∧
    (selectServer exampleIpHash { clientIp := some "10.0.0.1" } (fun _ => 0)).toOption.map
        Prod.fst
      = (selectServer exampleIpHash2 { clientIp := some "10.0.0.1" } (fun _ => 7)).toOption.map
          Prod.fst := by
  refine ⟨⟨rfl, rfl, by decide, by decide, by decide⟩, ?_⟩
  exact (ip_hash_deterministic exampleIpHash exampleIpHash2 { clientIp := some "10.0.0.1" }
    (fun _ => 0) (fun _ => 7) "10.0.0.1" rfl rfl rfl (by decide) rfl (by decide) (by decide)).2.2

/-! ## Round-robin counting lemmas -/

namespace LB

theorem countP_mod_range (N j : Nat) (hN : 0 < N) (hj : j < N) :
    ∀ M, (List.range M).countP (fun i => i % N == j)
      = M / N + (if j < M % N then 1 else 0) := by
  intro M
  induction M with
  | zero => simp
  | succ M ih =>
      rw [List.range_succ, List.countP_append, ih]
      have hr : M % N < N := Nat.mod_lt M hN
      have hqr := Nat.div_add_mod M N
      by_cases hrN : M % N + 1 < N
      · have hM1 : M + 1 = (M % N + 1) + (M / N) * N := by
          calc M + 1 = (N * (M / N) + M % N) + 1 := by rw [hqr]
            _ = (M % N + 1) + (M / N) * N := by ring
        have hdiv : (M + 1) / N = M / N := by
          rw [hM1, Nat.add_mul_div_right _ _ hN, Nat.div_eq_of_lt hrN, Nat.zero_add]
        have hmod : (M + 1) % N = M % N + 1 := by
          rw [hM1, Nat.add_mul_mod_self_right, Nat.mod_eq_of_lt hrN]
        rw [hdiv, hmod]
        simp only [List.countP_cons, List.countP_nil, beq_iff_eq, Nat.zero_add]
        split_ifs <;> omega
      · have hrEq : M % N + 1 = N := by omega
        have hM1 : M + 1 = (M / N + 1) * N := by
          calc M + 1 = (N * (M / N) + M % N) + 1 := by rw [hqr]
            _ = N * (M / N) + (M % N + 1) := by ring
            _ = N * (M / N) + N := by rw [hrEq]
            _ = (M / N + 1) * N := by ring
        have hdiv : (M + 1) / N = M / N + 1 := by
          rw [hM1, Nat.mul_div_cancel _ hN]
        have hmod : (M + 1) % N = 0 := by
          rw [hM1, Nat.mul_mod_left]
        rw [hdiv, hmod]
        simp only [List.countP_cons, List.countP_nil, beq_iff_eq, Nat.zero_add]
        split_ifs <;> omega

theorem ceil_div_of_mod_ne_zero (M N : Nat) (hN : 0 < N) (hr0 : M % N ≠ 0) :
    (M + N - 1) / N = M / N + 1 := by
  have hM0 : M ≠ 0 := fun h => hr0 (by rw [h]; exact Nat.zero_mod N)
  have h1 : 1 ≤ M := Nat.one_le_iff_ne_zero.mpr hM0
  have h2 : M + N - 1 = (M - 1) + 1 * N := by omega
  rw [h2, Nat.add_mul_div_right _ _ hN]
  congr 1
  have hle1 : (M - 1) / N ≤ M / N := Nat.div_le_div_right (Nat.sub_le M 1)
  have hmul : M / N * N ≤ M - 1 := by
    have hqr := Nat.div_add_mod M N
    have heq : N * (M / N) = M - M % N := Nat.eq_sub_of_add_eq hqr
    have hr1 : 1 ≤ M % N := Nat.pos_of_ne_zero hr0
    calc M / N * N = N * (M / N) := Nat.mul_comm _ _
      _ = M - M % N := heq
      _ ≤ M - 1 := Nat.sub_le_sub_left hr1 M
  exact Nat.le_antisymm hle1 ((Nat.le_div_iff_mul_le hN).mpr hmul)

/-- Among `M` consecutive round-robin positions, each slot `j < N` is hit
either `⌊M/N⌋` or `⌈M/N⌉ = (M+N-1)/N` times. -/
theorem count_floor_or_ceil (N j M : Nat) (hN : 0 < N) (hj : j < N) :
    (List.range M).countP (fun i => i % N == j) = M / N ∨
    (List.range M).countP (fun i => i % N == j) = (M + N - 1) / N := by
  rw [countP_mod_range N j hN hj M]
  by_cases hr0 : M % N = 0
  · left
    rw [hr0]
    simp
  · by_cases hjr : j < M % N
    · right
      rw [if_pos hjr, ceil_div_of_mod_ne_zero M N hN hr0]
    · left
      rw [if_neg hjr, Nat.add_zero]

end LB

namespace LB

theorem recordSelection_servers_ids (bal : Balancer) (srv : BackendServer) :
    (recordSelection bal srv).2.servers.map (fun s => s.id)
      = bal.servers.map (fun s => s.id) := by
  simp only [recordSelection, List.map_map]
  refine List.map_congr_left (fun s _ => ?_)
  by_cases h : s.id = srv.id <;> simp [h, addConnection]

theorem recordSelection_fields (bal : Balancer) (srv : BackendServer) :
    (recordSelection bal srv).2.strategy = bal.strategy ∧
    (recordSelection bal srv).2.roundRobinIndex = bal.roundRobinIndex ∧
    (recordSelection bal srv).2.servers.length = bal.servers.length ∧
    (recordSelection bal srv).1 = srv := by
  simp [recordSelection]

/-- One ROUND_ROBIN selection with every registered server available:
the cursor slot is chosen and the cursor advances by one. -/
theorem rr_step (b : Balancer) (rand : Nat → Nat)
    (hstrat : b.strategy = Strategy.round_robin)
    (hall : ∀ s ∈ b.servers, isAvailable s = true)
    (hlen : 0 < b.servers.length) :
    selectServer b {} rand
      = Except.ok (recordSelection
          { b with roundRobinIndex := b.roundRobinIndex + 1 }
          (b.servers.get ⟨b.roundRobinIndex % b.servers.length,
            Nat.mod_lt _ hlen⟩)) := by
  have hfilter : b.servers.filter (fun s => isAvailable s) = b.servers :=
    List.filter_eq_self.mpr (by intro a ha; simpa using hall a ha)
  have hsticky : stickyChoice b {} = none := by
    unfold stickyChoice
    simp [truthy]
  have hget : b.servers[b.roundRobinIndex % b.servers.length]?
      = some (b.servers.get ⟨b.roundRobinIndex % b.servers.length, Nat.mod_lt _ hlen⟩) :=
    List.getElem?_eq_getElem (Nat.mod_lt _ hlen)
  unfold selectServer
  rw [hfilter, if_neg (by omega), hsticky]
  unfold strategyPick
  rw [hstrat]
  unfold rrPick
  rw [hget]
  simp [truthy]

/-- The state invariant along a run of sequential all-available ROUND_ROBIN
selections: strategy preserved, cursor equal to the step index, ids and
length of the registry unchanged. -/
theorem rr_invariant (bal : Balancer) (rand : Nat → Nat) (M : Nat)
    (hstrat : bal.strategy = Strategy.round_robin) (hidx : bal.roundRobinIndex = 0)
    (hN : 0 < bal.servers.length)
    (havail : ∀ k, k < M → ∀ s ∈ (stateAt rand bal k).servers, isAvailable s = true) :
    ∀ k, k ≤ M →
      (stateAt rand bal k).strategy = Strategy.round_robin ∧
      (stateAt rand bal k).roundRobinIndex = k ∧
      (stateAt rand bal k).servers.map (fun s => s.id) = bal.servers.map (fun s => s.id) ∧
      (stateAt rand bal k).servers.length = bal.servers.length := by
  intro k
  induction k with
  | zero => intro _; exact ⟨hstrat, hidx, rfl, rfl⟩
  | succ k ih =>
      intro hk
      have ihk := ih (by omega)
      have hallk := havail k (by omega)
      have hstep := rr_step (stateAt rand bal k) rand ihk.1 hallk
        (by rw [ihk.2.2.2]; exact hN)
      have hs1 : stateAt rand bal (k + 1)
          = (recordSelection
              { stateAt rand bal k with
                  roundRobinIndex := (stateAt rand bal k).roundRobinIndex + 1 }
              ((stateAt rand bal k).servers.get
                ⟨(stateAt rand bal k).roundRobinIndex % (stateAt rand bal k).servers.length,
                  Nat.mod_lt _ (by rw [ihk.2.2.2]; exact hN)⟩)).2 := by
        simp only [stateAt, selStep, hstep]
      rw [hs1]
      obtain ⟨hf1, hf2, hf3, _⟩ := recordSelection_fields
        { stateAt rand bal k with
            roundRobinIndex := (stateAt rand bal k).roundRobinIndex + 1 }
        ((stateAt rand bal k).servers.get
          ⟨(stateAt rand bal k).roundRobinIndex % (stateAt rand bal k).servers.length,
            Nat.mod_lt _ (by rw [ihk.2.2.2]; exact hN)⟩)
      refine ⟨?_, ?_, ?_, ?_⟩
      · rw [hf1]
        exact ihk.1
      · rw [hf2]
        simp only
        rw [ihk.2.1]
      · rw [recordSelection_servers_ids]
        simp only
        exact ihk.2.2.1
      · rw [hf3]
        simp only
        exact ihk.2.2.2

/-- The id selected at step `k` of an all-available ROUND_ROBIN run is the
registry id at position `k mod N`. -/
theorem rr_selectedAt (bal : Balancer) (rand : Nat → Nat) (M : Nat)
    (hstrat : bal.strategy = Strategy.round_robin) (hidx : bal.roundRobinIndex = 0)
    (hN : 0 < bal.servers.length)
    (havail : ∀ k, k < M → ∀ s ∈ (stateAt rand bal k).servers, isAvailable s = true) :
    ∀ k, k < M →
      selectedAt rand bal k
        = (bal.servers.map (fun s => s.id))[k % bal.servers.length]? := by
  intro k hk
  have inv := rr_invariant bal rand M hstrat hidx hN havail k (by omega)
  have hlenk : 0 < (stateAt rand bal k).servers.length := by
    rw [inv.2.2.2]; exact hN
  have hstep := rr_step (stateAt rand bal k) rand inv.1 (havail k hk) hlenk
  have hidxeq : (stateAt rand bal k).roundRobinIndex % (stateAt rand bal k).servers.length
      = k % bal.servers.length := by
    rw [inv.2.1, inv.2.2.2]
  calc selectedAt rand bal k
      = some (((stateAt rand bal k).servers.get
          ⟨(stateAt rand bal k).roundRobinIndex % (stateAt rand bal k).servers.length,
            Nat.mod_lt _ hlenk⟩).id) := by
        simp only [selectedAt, hstep, recordSelection]
    _ = ((stateAt rand bal k).servers[(stateAt rand bal k).roundRobinIndex %
          (stateAt rand bal k).servers.length]?).map (fun s => s.id) := by
        rw [List.getElem?_eq_getElem (Nat.mod_lt _ hlenk)]
        rfl
    _ = ((stateAt rand bal k).servers[k % bal.servers.length]?).map (fun s => s.id) := by
        rw [hidxeq]
    _ = ((stateAt rand bal k).servers.map (fun s => s.id))[k % bal.servers.length]? := by
        rw [List.getElem?_map]
    _ = (bal.servers.map (fun s => s.id))[k % bal.servers.length]? := by
        rw [inv.2.2.1]

end LB

/-- C5: with strategy ROUND_ROBIN, the cursor freshly reset (as after any
membership change), distinct backend ids, and every registered server
available throughout the run, selection `k` picks
`available[cursor mod N]` (the cursor advancing by one per selection), and
over `M` sequential selections each backend is selected exactly
`⌊M/N⌋` or `⌈M/N⌉ = (M+N-1)/N` times. -/
theorem round_robin_fairness (bal : Balancer) (rand : Nat → Nat) (M j : Nat)
    (hstrat : bal.strategy = Strategy.round_robin)
    (hidx : bal.roundRobinIndex = 0)
    (hN : 0 < bal.servers.length)
    (hnodup : (bal.servers.map (fun s => s.id)).Nodup)
    (havail : ∀ k, k < M → ∀ s ∈ (stateAt rand bal k).servers, isAvailable s = true)
    (hj : j < bal.servers.length) :
    (∀ k, k < M →
      selectedAt rand bal k
        = (bal.servers.map (fun s => s.id))[k % bal.servers.length]?) ∧
    ((List.range M).countP (fun k =>
        selectedAt rand bal k == (bal.servers.map (fun s => s.id))[j]?)
      = M / bal.servers.length ∨
     (List.range M).countP (fun k =>
        selectedAt rand bal k == (bal.servers.map (fun s => s.id))[j]?)
      = (M + bal.servers.length - 1) / bal.servers.length) := by
  have hsel := rr_selectedAt bal rand M hstrat hidx hN havail
  refine ⟨hsel, ?_⟩
  have hlenids : (bal.servers.map (fun s => s.id)).length = bal.servers.length :=
    List.length_map _ _
  have hcongr : (List.range M).countP (fun k =>
        selectedAt rand bal k == (bal.servers.map (fun s => s.id))[j]?)
      = (List.range M).countP (fun k => k % bal.servers.length == j) := by
    refine List.countP_congr ?_
    intro k hk
    have hkM : k < M := List.mem_range.mp hk
    rw [hsel k hkM]
    simp only [beq_iff_eq]
    constructor
    · intro he
      exact List.getElem?_inj
        (by rw [hlenids]; exact Nat.mod_lt _ hN) hnodup he
    · intro he
      rw [he]
  rw [hcongr]
  exact count_floor_or_ceil bal.servers.length j M hN hj

theorem round_robin_fairness_witness :
    ((∀ k, k < 5 → ∀ s ∈ (stateAt (fun _ => 0) exampleRR k).servers,
        isAvailable s = true) ∧
      exampleRR.roundRobinIndex = 0 ∧
      (exampleRR.servers.map (fun s => s.id)).Nodup) ∧
    ((List.range 5).countP (fun k =>
        selectedAt (fun _ => 0) exampleRR k
          == (exampleRR.servers.map (fun s => s.id))[0]?)
      = 5 / exampleRR.servers.length ∨
     (List.range 5).countP (fun k =>
        selectedAt (fun _ => 0) exampleRR k
          == (exampleRR.servers.map (fun s => s.id))[0]?)
      = (5 + exampleRR.servers.length - 1) / exampleRR.servers.length) := by
  refine ⟨⟨by decide, by decide, by decide⟩, ?_⟩
  exact (round_robin_fairness exampleRR (fun _ => 0) 5 0 rfl (by decide) (by decide)
    (by decide) (by decide) (by decide)).2
